import Mathlib

/-
Verification of the LiblibAI client wrapper (src/lib/liblibai.ts).

The development shallowly embeds the signing scheme (generateUrlSignature,
buildSignatureParams), the upload pipeline (uploadFile), the workflow
submission's asset-reference normalization (runComfy), and the polling loop
(waitAppResult) as executable Lean functions, and proves the spec's claims
about them.  Machine integers do not occur in the source (JS numbers used
here are small naturals / the status enum), except inside HMAC-SHA1 where
32-bit arithmetic is made explicit with `% 4294967296`.
-/

namespace LiblibAI

/- ## String primitives modelling the JavaScript operations used by the source.
Strings are handled through their character lists, so all definitions reduce
well in the kernel. -/

/-- Models JS `pat.isPrefixOf`-style prefix test: `beginsWith xs pat` is true
iff `pat` is a prefix of `xs`. -/
def beginsWith : List Char → List Char → Bool
  | _, [] => true
  | [], _ :: _ => false
  | x :: xs, p :: ps => x == p && beginsWith xs ps

/-- Substring occurrence on character lists; `hasSubL xs pat` is true iff
`pat` occurs contiguously in `xs`.  Models JS `String.prototype.includes`. -/
def hasSubL : List Char → List Char → Bool
  | [], pat => beginsWith [] pat
  | l@(_ :: rest), pat => beginsWith l pat || hasSubL rest pat

/-- Models JS `s.includes(pat)`. -/
def hasSub (s pat : String) : Bool := hasSubL s.data pat.data

/-- Models JS `s.startsWith(pre)`. -/
def strStartsWith (s pre : String) : Bool := beginsWith s.data pre.data

/- ## HMAC-SHA1 and base64.

Modelled from the spec: the source delegates to the CryptoJS library
(`CryptoJS.HmacSHA1(str, secret).toString(CryptoJS.enc.Base64)`), whose code
is not part of this repository; the spec says "compute an HMAC (SHA-1) over
this message using the shared secret" and "encode the digest as ... base64".
The definitions below are the standard SHA-1 (FIPS 180), HMAC (RFC 2104) and
base64 (RFC 4648) algorithms over byte lists (bytes are `Nat < 256`),
checked against the published test vectors during development. -/

/-- 32-bit left rotation (operands kept below 2^32). -/
def rotl32 (n x : Nat) : Nat := ((x <<< n) ||| (x >>> (32 - n))) % 4294967296

/-- Big-endian byte expansion: `beBytes k n` is the `k` low-order bytes of
`n`, most significant first. -/
def beBytes : Nat → Nat → List Nat
  | 0, _ => []
  | k+1, n => beBytes k (n / 256) ++ [n % 256]

/-- SHA-1 message padding: append 0x80, zero bytes to 56 mod 64, then the
64-bit big-endian bit length. -/
def sha1Pad (msg : List Nat) : List Nat :=
  let L := msg.length
  let zeros := (64 + 56 - ((L + 1) % 64)) % 64
  msg ++ 128 :: List.replicate zeros 0 ++ beBytes 8 (8 * L)

/-- Pack a 64-byte block into 16 big-endian 32-bit words. -/
def wordsOfBlock : List Nat → List Nat
  | b0 :: b1 :: b2 :: b3 :: rest => (b0 * 16777216 + b1 * 65536 + b2 * 256 + b3) :: wordsOfBlock rest
  | _ => []

/-- Extend the 16 message-schedule words to 80 (`k` extension steps). -/
def extendWords : Nat → List Nat → List Nat
  | 0, ws => ws
  | k+1, ws =>
    let n := ws.length
    extendWords k (ws ++ [rotl32 1 ((ws.getD (n-3) 0) ^^^ (ws.getD (n-8) 0) ^^^ (ws.getD (n-14) 0) ^^^ (ws.getD (n-16) 0))])

/-- SHA-1 round function. -/
def sha1F (i b c d : Nat) : Nat :=
  if i < 20 then (b &&& c) ||| ((b ^^^ 4294967295) &&& d)
  else if i < 40 then b ^^^ c ^^^ d
  else if i < 60 then (b &&& c) ||| (b &&& d) ||| (c &&& d)
  else b ^^^ c ^^^ d

/-- SHA-1 round constants. -/
def sha1K (i : Nat) : Nat :=
  if i < 20 then 1518500249 else if i < 40 then 1859775393
  else if i < 60 then 2400959708 else 3395469782

/-- The 80 compression rounds, consuming the word schedule. -/
def sha1Rounds : Nat → List Nat → Nat × Nat × Nat × Nat × Nat → Nat × Nat × Nat × Nat × Nat
  | _, [], st => st
  | i, w :: ws, (a, b, c, d, e) =>
    let t := (rotl32 5 a + sha1F i b c d + e + sha1K i + w) % 4294967296
    sha1Rounds (i+1) ws (t, a, rotl32 30 b, c, d)

/-- Process one 64-byte block. -/
def sha1Block (h : Nat × Nat × Nat × Nat × Nat) (block : List Nat) : Nat × Nat × Nat × Nat × Nat :=
  let ws := extendWords 64 (wordsOfBlock block)
  let (h0, h1, h2, h3, h4) := h
  let (a, b, c, d, e) := sha1Rounds 0 ws h
  ((h0 + a) % 4294967296, (h1 + b) % 4294967296, (h2 + c) % 4294967296,
   (h3 + d) % 4294967296, (h4 + e) % 4294967296)

/-- Split into 64-byte chunks; the first argument is structural-recursion
fuel (any value at least `length / 64 + 1` gives exact 64-byte chunking). -/
def chunks64 : Nat → List Nat → List (List Nat)
  | _, [] => []
  | 0, bs => [bs]
  | k+1, bs => bs.take 64 :: chunks64 k (bs.drop 64)

/-- SHA-1 of a byte list: a 20-byte digest. -/
def sha1 (msg : List Nat) : List Nat :=
  let padded := sha1Pad msg
  let blocks := chunks64 padded.length padded
  let (h0, h1, h2, h3, h4) :=
    blocks.foldl sha1Block (1732584193, 4023233417, 2562383102, 271733878, 3285377520)
  beBytes 4 h0 ++ beBytes 4 h1 ++ beBytes 4 h2 ++ beBytes 4 h3 ++ beBytes 4 h4

/-- HMAC-SHA1 (RFC 2104, block size 64). -/
def hmacSha1 (key msg : List Nat) : List Nat :=
  let k0 := if 64 < key.length then sha1 key else key
  let kp := k0 ++ List.replicate (64 - k0.length) 0
  sha1 ((kp.map (fun b => b ^^^ 92)) ++ sha1 ((kp.map (fun b => b ^^^ 54)) ++ msg))

/-- UTF-8 encoding of one character. -/
def utf8Bytes (c : Char) : List Nat :=
  let n := c.toNat
  if n < 128 then [n]
  else if n < 2048 then [192 + n / 64, 128 + n % 64]
  else if n < 65536 then [224 + n / 4096, 128 + n / 64 % 64, 128 + n % 64]
  else [240 + n / 262144, 128 + n / 4096 % 64, 128 + n / 64 % 64, 128 + n % 64]

/-- UTF-8 bytes of a string (CryptoJS interprets string inputs as UTF-8). -/
def strBytes (s : String) : List Nat := s.data.flatMap utf8Bytes

/-- The base64 alphabet, in index order. -/
def b64Table : List Char :=
  "ABCDEFGHIJKLMNOPQRSTUVWXYZabcdefghijklmnopqrstuvwxyz0123456789+/".data

/-- Character for a 6-bit group (indices are always below 64 in use). -/
def b64Char (n : Nat) : Char := b64Table.getD n 'A'

/-- Standard base64 of a byte list, with `=` padding, as characters. -/
def base64Core : List Nat → List Char
  | [] => []
  | [b1] => [b64Char (b1 / 4), b64Char (b1 % 4 * 16), '=', '=']
  | [b1, b2] => [b64Char (b1 / 4), b64Char (b1 % 4 * 16 + b2 / 16), b64Char (b2 % 16 * 4), '=']
  | b1 :: b2 :: b3 :: rest =>
    b64Char (b1 / 4) :: b64Char (b1 % 4 * 16 + b2 / 16) ::
      b64Char (b2 % 16 * 4 + b3 / 64) :: b64Char (b3 % 64) :: base64Core rest

/-- Base64 of a byte list as a string. -/
def base64Encode (bs : List Nat) : String := ⟨base64Core bs⟩

/- ## The Signer (liblibai.ts lines 33-60). -/

/-- Models the regex replace `/\+/g → "-"` of line 45. -/
def replPlus (c : Char) : Char := if c == '+' then '-' else c

/-- Models the regex replace `/\//g → "_"` of line 46. -/
def replSlash (c : Char) : Char := if c == '/' then '_' else c

/-- Models the regex replace `/=+$/ → ""` of line 47: strip the trailing run
of `=` characters. -/
def stripTrailingEqL (l : List Char) : List Char :=
  (l.reverse.dropWhile (fun c => c == '=')).reverse

/-- The URL-safe transformation in the spec's words: "replace `+`→`-`,
`/`→`_`, strip trailing `=` padding". -/
def toUrlSafe (s : String) : String := ⟨stripTrailingEqL (s.data.map (fun c => replSlash (replPlus c)))⟩

/-- Result record of `generateUrlSignature` (liblibai.ts lines 49-53). -/
structure SignatureTriple where
  signature : String
  timestamp : Nat
  signatureNonce : String
deriving Repr, DecidableEq

/-- Embeds `generateUrlSignature` (liblibai.ts lines 33-54).  The timestamp
(`Date.now()`) and the nonce (`generateNonce(16)`) are nondeterministic
inputs in the source and are taken as parameters here. -/
def generateUrlSignature (apiSecret path : String) (timestamp : Nat) (signatureNonce : String) : SignatureTriple :=
  let str := path ++ "&" ++ toString timestamp ++ "&" ++ signatureNonce
  let hash := base64Encode (hmacSha1 (strBytes apiSecret) (strBytes str))
  let signature : String := ⟨stripTrailingEqL ((hash.data.map replPlus).map replSlash)⟩
  { signature := signature, timestamp := timestamp, signatureNonce := signatureNonce }

/-- Embeds `buildSignatureParams` (liblibai.ts lines 57-60). -/
def buildSignatureParams (apiKey apiSecret path : String) (timestamp : Nat) (signatureNonce : String) : String :=
  let r := generateUrlSignature apiSecret path timestamp signatureNonce
  "AccessKey=" ++ apiKey ++ "&Signature=" ++ r.signature ++ "&Timestamp="
    ++ toString r.timestamp ++ "&SignatureNonce=" ++ r.signatureNonce

/-- C1: for every path, secret, timestamp and nonce, the signature is the
HMAC-SHA1 digest of `path & timestamp & nonce` keyed by the secret, base64
encoded and made URL-safe (`+`→`-`, `/`→`_`, trailing `=` stripped); and the
emitted parameter string carries the access key, signature, timestamp and
nonce. -/
theorem c1_signature_scheme (apiKey apiSecret path : String) (timestamp : Nat) (nonce : String) :
    (generateUrlSignature apiSecret path timestamp nonce).signature
      = toUrlSafe (base64Encode (hmacSha1 (strBytes apiSecret)
          (strBytes (path ++ "&" ++ toString timestamp ++ "&" ++ nonce))))
    ∧ buildSignatureParams apiKey apiSecret path timestamp nonce
      = "AccessKey=" ++ apiKey ++ "&Signature="
          ++ (generateUrlSignature apiSecret path timestamp nonce).signature
          ++ "&Timestamp=" ++ toString timestamp ++ "&SignatureNonce=" ++ nonce := by
  refine ⟨?_, rfl⟩
  simp only [generateUrlSignature, toUrlSafe, List.map_map, Function.comp_def]

/- ## Alphabet facts for claim C9. -/

/-- The URL-safe base64 alphabet `[A-Za-z0-9_-]` from the spec. -/
def isUrlSafeB64Char (c : Char) : Bool :=
  ('A' ≤ c && c ≤ 'Z') || ('a' ≤ c && c ≤ 'z') || ('0' ≤ c && c ≤ '9') || c == '-' || c == '_'

theorem mem_getD (l : List Char) (n : Nat) (d : Char) : l.getD n d ∈ l ∨ l.getD n d = d := by
  induction l generalizing n with
  | nil => right; simp [List.getD]
  | cons x xs ih =>
    cases n with
    | zero => left; simp
    | succ m =>
      rcases ih m with h | h
      · left; simp only [List.getD_cons_succ]; exact List.mem_cons_of_mem _ h
      · right; simpa using h

theorem b64Char_mem (n : Nat) : b64Char n ∈ b64Table := by
  rcases mem_getD b64Table n 'A' with h | h
  · exact h
  · rw [b64Char, h]; decide

theorem base64Core_decomp (bs : List Nat) :
    ∃ main pad, base64Core bs = main ++ pad
      ∧ (∀ c ∈ main, c ∈ b64Table)
      ∧ (pad = [] ∨ pad = ['='] ∨ pad = ['=', '=']) := by
  induction bs using base64Core.induct with
  | case1 => exact ⟨[], [], rfl, by simp, Or.inl rfl⟩
  | case2 b1 =>
    refine ⟨[b64Char (b1 / 4), b64Char (b1 % 4 * 16)], ['=', '='], rfl, ?_, Or.inr (Or.inr rfl)⟩
    intro c hc
    simp only [List.mem_cons, List.not_mem_nil, or_false] at hc
    rcases hc with rfl | rfl <;> exact b64Char_mem _
  | case3 b1 b2 =>
    refine ⟨[b64Char (b1 / 4), b64Char (b1 % 4 * 16 + b2 / 16), b64Char (b2 % 16 * 4)],
      ['='], rfl, ?_, Or.inr (Or.inl rfl)⟩
    intro c hc
    simp only [List.mem_cons, List.not_mem_nil, or_false] at hc
    rcases hc with rfl | rfl | rfl <;> exact b64Char_mem _
  | case4 b1 b2 b3 rest ih =>
    obtain ⟨main, pad, he, hm, hp⟩ := ih
    refine ⟨b64Char (b1 / 4) :: b64Char (b1 % 4 * 16 + b2 / 16) ::
      b64Char (b2 % 16 * 4 + b3 / 64) :: b64Char (b3 % 64) :: main, pad, ?_, ?_, hp⟩
    · simp [base64Core, he]
    · intro c hc
      simp only [List.mem_cons] at hc
      rcases hc with rfl | rfl | rfl | rfl | hc
      · exact b64Char_mem _
      · exact b64Char_mem _
      · exact b64Char_mem _
      · exact b64Char_mem _
      · exact hm c hc

theorem dropWhile_append_all (p : Char → Bool) (as bs : List Char) (h : ∀ a ∈ as, p a = true) :
    (as ++ bs).dropWhile p = bs.dropWhile p := by
  induction as with
  | nil => rfl
  | cons x xs ih =>
    simp only [List.cons_append, List.dropWhile_cons, h x (List.mem_cons_self x xs), if_true]
    exact ih (fun a ha => h a (List.mem_cons_of_mem _ ha))

theorem dropWhile_eq_self (p : Char → Bool) (l : List Char) (h : ∀ x ∈ l, p x = false) :
    l.dropWhile p = l := by
  cases l with
  | nil => rfl
  | cons x xs => simp [List.dropWhile_cons, h x (List.mem_cons_self x xs)]

theorem stripTrailingEqL_append (xs pad : List Char)
    (hxs : ∀ c ∈ xs, (c == '=') = false) (hpad : ∀ c ∈ pad, (c == '=') = true) :
    stripTrailingEqL (xs ++ pad) = xs := by
  unfold stripTrailingEqL
  rw [List.reverse_append,
    dropWhile_append_all _ _ _ (fun a ha => hpad a (List.mem_reverse.mp ha)),
    dropWhile_eq_self _ _ (fun a ha => hxs a (List.mem_reverse.mp ha)),
    List.reverse_reverse]

theorem table_maps_safe : ∀ c ∈ b64Table,
    isUrlSafeB64Char (replSlash (replPlus c)) = true
      ∧ ((replSlash (replPlus c)) == '=') = false := by decide

theorem base64Encode_data (bs : List Nat) : (base64Encode bs).data = base64Core bs := rfl

theorem mk_data (l : List Char) : (String.mk l).data = l := rfl

/-- C9: every character of the produced signature lies in the URL-safe
base64 alphabet `[A-Za-z0-9_-]`; in particular it contains no `+`, no `/`
and no `=` at all (hence no trailing padding). -/
theorem c9_signature_urlsafe_alphabet (apiSecret path : String) (timestamp : Nat) (nonce : String) :
    (generateUrlSignature apiSecret path timestamp nonce).signature.data.all isUrlSafeB64Char = true := by
  obtain ⟨main, pad, he, hm, hp⟩ := base64Core_decomp
    (hmacSha1 (strBytes apiSecret) (strBytes (path ++ "&" ++ toString timestamp ++ "&" ++ nonce)))
  have hdef : (generateUrlSignature apiSecret path timestamp nonce).signature
      = ⟨stripTrailingEqL (((base64Encode (hmacSha1 (strBytes apiSecret)
          (strBytes (path ++ "&" ++ toString timestamp ++ "&" ++ nonce)))).data.map replPlus).map replSlash)⟩ := rfl
  rw [hdef, mk_data, base64Encode_data]
  have hpadmap : (pad.map replPlus).map replSlash = pad := by
    rcases hp with rfl | rfl | rfl <;> decide
  have hxs : ∀ c ∈ (main.map replPlus).map replSlash, (c == '=') = false := by
    intro c hc
    simp only [List.map_map, List.mem_map, Function.comp] at hc
    obtain ⟨a, ha, rfl⟩ := hc
    exact (table_maps_safe a (hm a ha)).2
  have hpadeq : ∀ c ∈ pad, (c == '=') = true := by
    intro c hc
    rcases hp with rfl | rfl | rfl
    · exact absurd hc (List.not_mem_nil c)
    · simp only [List.mem_singleton] at hc; subst hc; decide
    · simp only [List.mem_cons, List.not_mem_nil, or_false] at hc
      rcases hc with rfl | rfl <;> decide
  rw [he, List.map_append, List.map_append, hpadmap, stripTrailingEqL_append _ _ hxs hpadeq,
    List.all_eq_true]
  intro c hc
  simp only [List.map_map, List.mem_map, Function.comp] at hc
  obtain ⟨a, ha, rfl⟩ := hc
  exact (table_maps_safe a (hm a ha)).1

/-- The Aliyun OSS storage base URL, `LiblibAIService.ossBaseUrl`
(liblibai.ts line 12). -/
def ossBaseUrl : String := "https://liblibai-airship-temp.oss-cn-beijing.aliyuncs.com"

/- ## The Uploader (liblibai.ts lines 63-249). -/

/-- Models JS `String.prototype.split(".")` on character lists: always
yields at least one (possibly empty) segment. -/
def splitDotL : List Char → List (List Char)
  | [] => [[]]
  | c :: rest =>
    if c = '.' then [] :: splitDotL rest
    else
      match splitDotL rest with
      | [] => [[c]]
      | s :: ss => (c :: s) :: ss

/-- Models `filename.split(".").pop()?.toLowerCase() || "png"` (line 216):
`pop()` of the split is its last segment (never undefined, since `split`
yields at least one segment); `|| "png"` replaces the falsy empty string.
`Char.toLower` lowercases ASCII letters, which covers the extension strings
the source compares against. -/
def uploadExtension (filename : String) : String :=
  let e := ((splitDotL filename.data).getLastD []).map Char.toLower
  if e.isEmpty then "png" else ⟨e⟩

/-- Models `filename.split(".")[0] || "image"` (line 225). -/
def uploadBaseName (filename : String) : String :=
  let f := (splitDotL filename.data).headD []
  if f.isEmpty then "image" else ⟨f⟩

/-- Models the MIME-type selection of `uploadToOSS` (lines 154-161): the
lowercased final dot-segment of the upload filename picks the content type
(no "png" default here). -/
def contentTypeOf (filename : String) : String :=
  let ext := ((splitDotL filename.data).getLastD []).map Char.toLower
  if ext = "jpg".data ∨ ext = "jpeg".data then "image/jpeg"
  else if ext = "png".data then "image/png"
  else "application/octet-stream"

/-- The fields of the upload authorization consumed by the model: the
storage `key` and the destination `postUrl`.  The other policy fields
(lines 144-150) and the `postUrl` proxy rewrite (lines 104-115) are carried
through the source unchanged and no claim depends on them. -/
structure UploadAuth where
  key : String
  postUrl : String
deriving Repr, DecidableEq

/-- The network calls `uploadFile` can attempt, in order. -/
inductive UploadCall where
  | authRequest (name extension : String)
  | ossPost (postUrl uploadFilename contentType : String)
deriving Repr, DecidableEq

/-- Embeds `uploadFile` (lines 211-249) together with the network steps of
`getUploadSignature` (63-130) and `uploadToOSS` (133-208).  The two network
round-trips are supplied as oracle responses: `authResp` is the outcome of
the signed authorization call (`.error` = the call threw or returned a
non-zero code) and `ossStatus` the HTTP status of the storage POST (2xx =
success, line 190; the failure message of line 196 is modelled up to its
status-code text).  Returns the outcome — the `{key, ossBaseUrl}` pair on
success — paired with the list of network calls attempted. -/
def uploadFile (filename : String) (authResp : Except String UploadAuth) (ossStatus : Nat) :
    Except String (String × String) × List UploadCall :=
  let extension := uploadExtension filename
  -- models the early rejection `if (!['jpg','jpeg','png'].includes(extension)) throw` (lines 217-219)
  if extension ∈ (["jpg", "jpeg", "png"] : List String) then
    let normalizedExtension := if extension = "jpeg" then "jpg" else extension
    let filenameWithoutExt := uploadBaseName filename
    let authCall := UploadCall.authRequest filenameWithoutExt normalizedExtension
    match authResp with
    | .error e => (.error e, [authCall])
    | .ok sig =>
      let uploadFilename := filenameWithoutExt ++ "." ++ normalizedExtension
      let ossCall := UploadCall.ossPost sig.postUrl uploadFilename (contentTypeOf uploadFilename)
      if 200 ≤ ossStatus ∧ ossStatus < 300 then
        (.ok (sig.key, ossBaseUrl), [authCall, ossCall])
      else
        (.error ("上传失败，状态码: " ++ toString ossStatus), [authCall, ossCall])
  else
    (.error "文件类型必须是jpg、jpeg或png", [])

theorem splitDotL_cons_dot (rest : List Char) : splitDotL ('.' :: rest) = [] :: splitDotL rest := by
  simp [splitDotL]

theorem splitDotL_cons_ne (c : Char) (rest : List Char) (hc : c ≠ '.') :
    splitDotL (c :: rest) = (c :: (splitDotL rest).headD []) :: (splitDotL rest).tail := by
  rcases hsp : splitDotL rest with _ | ⟨s, ss⟩
  · simp [splitDotL, hc, hsp]
  · simp [splitDotL, hc, hsp]

theorem splitDotL_ne_nil (l : List Char) : splitDotL l ≠ [] := by
  cases l with
  | nil => simp [splitDotL]
  | cons c rest =>
    by_cases hc : c = '.'
    · subst hc; rw [splitDotL_cons_dot]; simp
    · rw [splitDotL_cons_ne c rest hc]; simp

theorem splitDotL_no_dot (l : List Char) (h : ∀ c ∈ l, c ≠ '.') : splitDotL l = [l] := by
  induction l with
  | nil => rfl
  | cons c rest ih =>
    have hc : c ≠ '.' := h c (List.mem_cons_self c rest)
    have hr : splitDotL rest = [rest] := ih (fun x hx => h x (List.mem_cons_of_mem _ hx))
    rw [splitDotL_cons_ne c rest hc, hr]
    rfl

theorem splitDotL_length_two (l : List Char) (h : '.' ∈ l) : 2 ≤ (splitDotL l).length := by
  induction l with
  | nil => cases h
  | cons c rest ih =>
    by_cases hc : c = '.'
    · subst hc
      rw [splitDotL_cons_dot]
      have h1 : 0 < (splitDotL rest).length := List.length_pos.mpr (splitDotL_ne_nil rest)
      simp only [List.length_cons]
      omega
    · have hr : '.' ∈ rest := by
        rcases List.mem_cons.mp h with h2 | h2
        · exact absurd h2.symm hc
        · exact h2
      have h2 := ih hr
      rw [splitDotL_cons_ne c rest hc]
      simp only [List.length_cons, List.length_tail] at h2 ⊢
      omega

theorem getLastD_irrel {α : Type} (l : List α) (d1 d2 : α) (h : l ≠ []) :
    l.getLastD d1 = l.getLastD d2 := by
  cases l with
  | nil => exact absurd rfl h
  | cons x t => rw [List.getLastD_cons, List.getLastD_cons]

theorem lastSeg_append_dot (a b : List Char) :
    (splitDotL (a ++ '.' :: b)).getLastD [] = (splitDotL b).getLastD [] := by
  induction a with
  | nil =>
    rw [List.nil_append, splitDotL_cons_dot, List.getLastD_cons]
  | cons c a2 ih =>
    by_cases hc : c = '.'
    · subst hc
      rw [List.cons_append, splitDotL_cons_dot, List.getLastD_cons]
      exact ih
    · rw [List.cons_append, splitDotL_cons_ne c _ hc]
      rcases hsp : splitDotL (a2 ++ '.' :: b) with _ | ⟨s, ss⟩
      · exact absurd hsp (splitDotL_ne_nil _)
      · have hss : ss ≠ [] := by
          have h2 := splitDotL_length_two (a2 ++ '.' :: b) (by simp)
          rw [hsp] at h2
          intro he
          subst he
          simp at h2
        simp only [List.headD_cons, List.tail_cons, List.getLastD_cons]
        rw [getLastD_irrel ss (c :: s) s hss]
        rw [hsp, List.getLastD_cons] at ih
        simpa using ih

theorem lastSeg_of_concat (name ext : String) (hext : ∀ c ∈ ext.data, c ≠ '.') :
    (splitDotL (name ++ "." ++ ext).data).getLastD [] = ext.data := by
  have hdata : (name ++ "." ++ ext).data = name.data ++ '.' :: ext.data := by
    rw [String.data_append, String.data_append, List.append_assoc]
    rfl
  rw [hdata, lastSeg_append_dot, splitDotL_no_dot ext.data hext]
  rfl

/-- Trace characterization of `uploadFile` once the extension validation
passes: the authorization request always comes first, and the storage POST
follows exactly when the authorization succeeded. -/
theorem uploadFile_calls (filename : String) (authResp : Except String UploadAuth) (ossStatus : Nat)
    (h : uploadExtension filename ∈ (["jpg", "jpeg", "png"] : List String)) :
    (uploadFile filename authResp ossStatus).2
      = UploadCall.authRequest (uploadBaseName filename)
          (if uploadExtension filename = "jpeg" then "jpg" else uploadExtension filename)
        :: (match authResp with
            | .error _ => []
            | .ok sig => [UploadCall.ossPost sig.postUrl
                (uploadBaseName filename ++ "." ++ (if uploadExtension filename = "jpeg" then "jpg" else uploadExtension filename))
                (contentTypeOf (uploadBaseName filename ++ "." ++ (if uploadExtension filename = "jpeg" then "jpg" else uploadExtension filename)))]) := by
  simp only [uploadFile]
  rw [if_pos h]
  cases authResp with
  | error e => rfl
  | ok sig =>
    dsimp only
    by_cases h2 : 200 ≤ ossStatus ∧ ossStatus < 300
    · rw [if_pos h2]
    · rw [if_neg h2]

/-- C7: a filename whose extension falls outside the allow-list
{jpg, jpeg, png} is rejected with the descriptive validation error before
any network call: the returned call trace is empty (neither the
authorization request nor the storage upload is attempted). -/
theorem c7_extension_rejected_before_network (filename : String)
    (authResp : Except String UploadAuth) (ossStatus : Nat)
    (h : uploadExtension filename ∉ (["jpg", "jpeg", "png"] : List String)) :
    uploadFile filename authResp ossStatus = (.error "文件类型必须是jpg、jpeg或png", []) := by
  simp only [uploadFile]
  rw [if_neg h]

/-- Witness for C7 at the concrete disallowed filename "archive.gif". -/
theorem c7_extension_rejected_before_network_witness :
    (uploadExtension "archive.gif" ∉ (["jpg", "jpeg", "png"] : List String))
    ∧ uploadFile "archive.gif" (.ok ⟨"k", "u"⟩) 200 = (.error "文件类型必须是jpg、jpeg或png", []) :=
  ⟨by decide, c7_extension_rejected_before_network "archive.gif" (.ok ⟨"k", "u"⟩) 200 (by decide)⟩

/-- C8: equivalent extensions are normalized to the canonical form before
the authorization request — "photo.jpeg" and "photo.jpg" both request the
canonical extension "jpg" — and the extension string of the authorization
request is identical to the one of the actual upload's filename: the upload
filename is `name ++ "." ++ ext`, whose final dot-segment is exactly
`ext`. -/
theorem c8_extension_normalized_consistent :
    (∀ (authResp : Except String UploadAuth) (ossStatus : Nat),
        (uploadFile "photo.jpeg" authResp ossStatus).2.head? = some (.authRequest "photo" "jpg")
        ∧ (uploadFile "photo.jpg" authResp ossStatus).2.head? = some (.authRequest "photo" "jpg"))
    ∧ (∀ (filename : String) (authResp : Except String UploadAuth) (ossStatus : Nat)
         (name ext : String) (rest : List UploadCall),
        (uploadFile filename authResp ossStatus).2 = UploadCall.authRequest name ext :: rest →
        ∀ postUrl ufn ct, UploadCall.ossPost postUrl ufn ct ∈ rest →
          ufn = name ++ "." ++ ext ∧ (splitDotL ufn.data).getLastD [] = ext.data) := by
  constructor
  · intro authResp ossStatus
    constructor <;>
    · rw [uploadFile_calls _ authResp ossStatus (by decide)]
      rfl
  · intro filename authResp ossStatus name ext rest htr postUrl ufn ct hmem
    by_cases hval : uploadExtension filename ∈ (["jpg", "jpeg", "png"] : List String)
    · rw [uploadFile_calls filename authResp ossStatus hval] at htr
      injection htr with h1 h2
      injection h1 with hname hext
      subst hname
      subst hext
      subst h2
      have hnorm : (if uploadExtension filename = "jpeg" then "jpg" else uploadExtension filename) = "jpg"
          ∨ (if uploadExtension filename = "jpeg" then "jpg" else uploadExtension filename) = "png" := by
        simp only [List.mem_cons, List.not_mem_nil, or_false] at hval
        rcases hval with h | h | h
        · left; rw [h]; rfl
        · left; rw [if_pos h]
        · right; rw [h]; rfl
      cases authResp with
      | error e => exact absurd hmem (List.not_mem_nil _)
      | ok sig =>
        simp only [List.mem_cons, List.not_mem_nil, or_false] at hmem
        injection hmem with hp hu hct
        subst hu
        refine ⟨rfl, ?_⟩
        apply lastSeg_of_concat
        rcases hnorm with h | h <;> rw [h] <;> decide
    · simp only [uploadFile] at htr
      rw [if_neg hval] at htr
      simp at htr

/-- Witness for C8 at the concrete filename "photo.jpeg" with a successful
authorization and upload. -/
theorem c8_extension_normalized_consistent_witness :
    (uploadFile "photo.jpeg" (.ok ⟨"k", "u"⟩) 204).2.head? = some (.authRequest "photo" "jpg")
    ∧ ("photo.jpg" : String) = "photo" ++ "." ++ "jpg"
    ∧ (splitDotL ("photo.jpg" : String).data).getLastD [] = ("jpg" : String).data := by
  have h := c8_extension_normalized_consistent
  refine ⟨(h.1 (.ok ⟨"k", "u"⟩) 204).1, ?_, ?_⟩
  · have h2 := h.2 "photo.jpeg" (.ok ⟨"k", "u"⟩) 204 "photo" "jpg"
      [UploadCall.ossPost "u" "photo.jpg" "image/jpeg"] (by decide)
      "u" "photo.jpg" "image/jpeg" (by decide)
    exact h2.1
  · have h2 := h.2 "photo.jpeg" (.ok ⟨"k", "u"⟩) 204 "photo" "jpg"
      [UploadCall.ossPost "u" "photo.jpg" "image/jpeg"] (by decide)
      "u" "photo.jpg" "image/jpeg" (by decide)
    exact h2.2

/-- C10: a filename whose final dot-segment is empty ("photo." or the empty
filename) is not rejected by the extension validation: the extension
silently defaults to "png" and the upload proceeds as a png file (the
authorization request is made, carrying the extension "png"). -/
theorem c10_empty_extension_defaults_png :
    uploadExtension "photo." = "png" ∧ uploadExtension "" = "png"
    ∧ (∀ (authResp : Except String UploadAuth) (ossStatus : Nat),
        (uploadFile "photo." authResp ossStatus).2.head? = some (.authRequest "photo" "png"))
    ∧ (∀ (authResp : Except String UploadAuth) (ossStatus : Nat),
        (uploadFile "" authResp ossStatus).2.head? = some (.authRequest "image" "png")) := by
  refine ⟨by decide, by decide, ?_, ?_⟩
  · intro authResp ossStatus
    rw [uploadFile_calls _ authResp ossStatus (by decide)]
    rfl
  · intro authResp ossStatus
    rw [uploadFile_calls _ authResp ossStatus (by decide)]
    rfl

/- ## JobSubmitter: the asset-reference normalization of runComfy
(liblibai.ts lines 263-292). -/

/-- The value found at `generateParams["190"].inputs.image`: a string, an
object carrying a string `key` property, or some other non-string shape
without a `key` (which the source rejects). -/
inductive ImageRefVal where
  | str (s : String)
  | objWithKey (key : String)
  | otherShape
deriving Repr, DecidableEq

/-- Embeds the image-reference handling of `runComfy` (lines 263-292): a
non-string value yields its `key` property or the error of line 279; then
a string not starting with "http" is prefixed with `ossBaseUrl` and a `/`
(line 286).  The returned string is the image value placed into the
submitted payload (line 291). -/
def normalizeImageParam : ImageRefVal → Except String String
  | .otherShape => .error "无效的图片URL格式"
  | .str s => .ok (if strStartsWith s "http" then s else ossBaseUrl ++ "/" ++ s)
  | .objWithKey k => .ok (if strStartsWith k "http" then k else ossBaseUrl ++ "/" ++ k)

/-- C6: a bare storage key (a string, or an object key, not starting with
"http") is rewritten into the fully-qualified URL `ossBaseUrl ++ "/" ++ key`
in the submitted payload — never the bare key itself. -/
theorem c6_bare_key_rewritten (k : String) (h : strStartsWith k "http" = false) :
    normalizeImageParam (.str k) = .ok (ossBaseUrl ++ "/" ++ k)
    ∧ normalizeImageParam (.objWithKey k) = .ok (ossBaseUrl ++ "/" ++ k)
    ∧ ossBaseUrl ++ "/" ++ k ≠ k := by
  refine ⟨?_, ?_, ?_⟩
  · simp [normalizeImageParam, h]
  · simp [normalizeImageParam, h]
  · intro heq
    have h2 := congrArg String.length heq
    rw [String.length_append, String.length_append] at h2
    have h3 : ossBaseUrl.length = 57 := rfl
    have h4 : ("/" : String).length = 1 := rfl
    omega

/-- Witness for C6 at the concrete bare key "abc123.png". -/
theorem c6_bare_key_rewritten_witness :
    normalizeImageParam (.str "abc123.png")
        = .ok (ossBaseUrl ++ "/" ++ "abc123.png")
    ∧ ossBaseUrl ++ "/" ++ "abc123.png"
        = "https://liblibai-airship-temp.oss-cn-beijing.aliyuncs.com/abc123.png"
    ∧ ossBaseUrl ++ "/" ++ "abc123.png" ≠ "abc123.png" := by
  have h := c6_bare_key_rewritten "abc123.png" (by decide)
  exact ⟨h.1, by decide, h.2.2⟩

/- ## JobPoller: getComfyStatus (liblibai.ts lines 334-372) and
waitAppResult (lines 375-433). -/

/-- One result image of the status payload (only its `imageUrl` field is
consumed, line 399). -/
structure GenImage where
  imageUrl : String
deriving Repr, DecidableEq

/-- The parsed status payload (`response.data.data` of the status query):
the numeric status enum (1 PENDING, 2 PROCESSING, 3 GENERATED, 4 AUDITING,
5 SUCCESS, 6 FAILED, 7 TIMEOUT, lines 379-387), the optional result array,
and the optional failure-reason string. -/
structure StatusPayload where
  generateStatus : Nat
  images : Option (List GenImage)
  failReason : Option String
deriving Repr, DecidableEq

/-- One response of the proxied status query: either the HTTP call threw
(`netError`, message as produced by the HTTP client) or a reply
`{code, msg, data}` was parsed. -/
inductive ComfyResponse where
  | netError (msg : String)
  | reply (code : Int) (msg : String) (data : StatusPayload)
deriving Repr, DecidableEq

/-- Embeds `getComfyStatus` (lines 334-372): a thrown transport error is
rethrown; a non-zero `code` throws `Query failed: msg` (line 356);
otherwise the payload is returned. -/
def getComfyStatus : ComfyResponse → Except String StatusPayload
  | .netError m => .error m
  | .reply code msg data => if code ≠ 0 then .error ("Query failed: " ++ msg) else .ok data

/-- Models JS `status.failReason || "Unknown reason"` (line 405): absent or
empty reasons are falsy. -/
def failReasonText : Option String → String
  | some r => if r = "" then "Unknown reason" else r
  | none => "Unknown reason"

/-- Outcome of the `try` body of one polling iteration: return a URL, throw
a message (handled by the `catch` of line 411), or fall through to the
sleep and the next attempt. -/
inductive AttemptStep where
  | done (url : String)
  | raise (msg : String)
  | keepPolling
deriving Repr, DecidableEq

/-- Embeds the `try` body, lines 392-410: query the status; on SUCCESS (5)
return the first image's URL or throw the no-images error (line 401); on
FAILED (6) / TIMEOUT (7) throw the terminal message of line 405; otherwise
sleep and continue.  JS `status.images && status.images.length > 0` is
false exactly when `images` is absent or empty. -/
def tryBody (resp : ComfyResponse) : AttemptStep :=
  match getComfyStatus resp with
  | .error m => .raise m
  | .ok status =>
    if status.generateStatus = 5 then
      match status.images with
      | some (img :: _) => .done img.imageUrl
      | _ => .raise "No images found in successful generation result"
    else if status.generateStatus = 6 ∨ status.generateStatus = 7 then
      .raise ("Image generation " ++ (if status.generateStatus = 6 then "failed" else "timed out")
        ++ ": " ++ failReasonText status.failReason)
    else .keepPolling

deriving instance DecidableEq for Except

/-- Result of a polling run: the outcome (image URL, or the thrown error
message) and the number of status queries performed — instrumentation for
the claims; each loop iteration performs exactly one query (line 392). -/
structure RunResult where
  outcome : Except String String
  polls : Nat
deriving Repr, DecidableEq

/-- The `for` loop of `waitAppResult` (lines 389-431), from attempt number
`attempt` with `fuel` iterations left (`waitAppResult` starts it with
`attempt = 1` and `fuel = maxAttempts`, keeping `attempt + fuel =
maxAttempts + 1`).  The `catch` block (lines 411-429) rethrows when the
caught message contains "failed" or "timed out" (line 415), rethrows on
the last attempt (line 422), and otherwise sleeps and retries; a loop that
runs out of attempts throws "Max polling attempts reached" (line 432). -/
def waitFrom (oracle : Nat → ComfyResponse) (maxAttempts : Nat) : Nat → Nat → RunResult
  | _, 0 => ⟨.error "Max polling attempts reached", 0⟩
  | attempt, fuel+1 =>
    match tryBody (oracle attempt) with
    | .done url => ⟨.ok url, 1⟩
    | .keepPolling =>
      let r := waitFrom oracle maxAttempts (attempt+1) fuel
      ⟨r.outcome, r.polls + 1⟩
    | .raise m =>
      if hasSub m "failed" || hasSub m "timed out" then ⟨.error m, 1⟩
      else if attempt == maxAttempts then ⟨.error m, 1⟩
      else
        let r := waitFrom oracle maxAttempts (attempt+1) fuel
        ⟨r.outcome, r.polls + 1⟩

/-- Embeds `waitAppResult` (liblibai.ts lines 375-433) over an oracle
giving the status-query response of each (1-based) attempt. -/
def waitAppResult (oracle : Nat → ComfyResponse) (maxAttempts : Nat) : RunResult :=
  waitFrom oracle maxAttempts 1 maxAttempts

theorem beginsWith_nil_pat (l : List Char) : beginsWith l [] = true := by
  cases l <;> rfl

theorem beginsWith_append (xs ys pat : List Char) (h : beginsWith xs pat = true) :
    beginsWith (xs ++ ys) pat = true := by
  induction pat generalizing xs with
  | nil => exact beginsWith_nil_pat (xs ++ ys)
  | cons p ps ih =>
    cases xs with
    | nil => exact absurd h (by simp [beginsWith])
    | cons x xs2 =>
      simp only [beginsWith, Bool.and_eq_true] at h
      simp only [List.cons_append, beginsWith, Bool.and_eq_true]
      exact ⟨h.1, ih xs2 h.2⟩

theorem hasSubL_nil_pat (l : List Char) : hasSubL l [] = true := by
  cases l <;> rfl

theorem hasSubL_append_right (xs ys pat : List Char) (h : hasSubL xs pat = true) :
    hasSubL (xs ++ ys) pat = true := by
  induction xs with
  | nil =>
    cases pat with
    | nil => exact hasSubL_nil_pat ys
    | cons p ps => exact absurd h (by simp [hasSubL, beginsWith])
  | cons x xs2 ih =>
    simp only [hasSubL, Bool.or_eq_true] at h
    simp only [List.cons_append, hasSubL, Bool.or_eq_true]
    rcases h with h | h
    · exact Or.inl (beginsWith_append _ _ _ h)
    · exact Or.inr (ih h)

theorem terminal_msg_has_failed (r : String) :
    hasSub ("Image generation failed: " ++ r) "failed" = true := by
  unfold hasSub
  rw [String.data_append]
  apply hasSubL_append_right
  decide

theorem terminal_msg_has_timed_out (r : String) :
    hasSub ("Image generation timed out: " ++ r) "timed out" = true := by
  unfold hasSub
  rw [String.data_append]
  apply hasSubL_append_right
  decide

/-- C2: at any attempt of any polling run (whatever the remaining attempt
budget), a successfully parsed status payload reporting FAILED (6) or
TIMEOUT (7) stops the poller immediately: exactly this one status query is
performed, no retry happens, and the raised error carries the reported
failure reason (via `failReasonText`). -/
theorem c2_terminal_failure_stops (oracle : Nat → ComfyResponse)
    (maxAttempts attempt fuel : Nat) (msg : String) (p : StatusPayload)
    (hresp : oracle attempt = .reply 0 msg p)
    (hst : p.generateStatus = 6 ∨ p.generateStatus = 7) :
    waitFrom oracle maxAttempts attempt (fuel + 1)
      = ⟨.error ("Image generation " ++ (if p.generateStatus = 6 then "failed" else "timed out")
          ++ ": " ++ failReasonText p.failReason), 1⟩ := by
  have htb : tryBody (oracle attempt)
      = .raise ("Image generation " ++ (if p.generateStatus = 6 then "failed" else "timed out")
          ++ ": " ++ failReasonText p.failReason) := by
    rw [hresp]
    rcases hst with h | h <;> simp [tryBody, getComfyStatus, h]
  simp only [waitFrom, htb]
  rcases hst with h | h
  · simp [h, terminal_msg_has_failed]
  · simp [h, terminal_msg_has_timed_out]

/-- Witness for C2: a FAILED payload with reason "boom" at attempt 1 of 60
stops after exactly one query with the terminal error. -/
theorem c2_terminal_failure_stops_witness :
    waitFrom (fun _ => .reply 0 "" ⟨6, none, some "boom"⟩) 60 1 60
      = ⟨.error "Image generation failed: boom", 1⟩ := by
  have h := c2_terminal_failure_stops (fun _ => .reply 0 "" ⟨6, none, some "boom"⟩)
    60 1 59 "" ⟨6, none, some "boom"⟩ rfl (Or.inl rfl)
  have e : (59 : Nat) + 1 = 60 := rfl
  rw [e] at h
  rw [h]
  decide

/-- The polling-run oracle refuting C3: attempt 1 parses a terminal SUCCESS
payload with an empty result list, attempt 2 (and later) a SUCCESS payload
with one image. -/
def c3Oracle : Nat → ComfyResponse := fun attempt =>
  if attempt = 1 then .reply 0 "" ⟨5, some [], none⟩
  else .reply 0 "" ⟨5, some [⟨"https://img.example/out.png"⟩], none⟩

/-- C3 (behavior of the code at the failing input): after observing the
terminal SUCCESS-with-empty-results payload at attempt 1, the poller does
NOT stop — the thrown "No images found in successful generation result"
message matches neither "failed" nor "timed out" in the catch block, so the
loop retries and performs a second status query, returning the attempt-2
result.  This contradicts the claim that no further status queries happen
once a terminal status is observed. -/
theorem c3_success_empty_repolls :
    waitAppResult c3Oracle 60 = ⟨.ok "https://img.example/out.png", 2⟩ := by decide

/-- The polling-run oracle refuting C4: attempt 1 fails at transport level
with axios's standard HTTP-error message; every later attempt would return
SUCCESS with a result. -/
def c4Oracle : Nat → ComfyResponse := fun attempt =>
  if attempt = 1 then .netError "Request failed with status code 500"
  else .reply 0 "" ⟨5, some [⟨"https://img.example/out.png"⟩], none⟩

/-- A benign-message transport failure for the same scenario: attempts 1-59
throw "Network Error", attempt 60 returns SUCCESS with a result. -/
def c4BenignOracle : Nat → ComfyResponse := fun attempt =>
  if attempt ≤ 59 then .netError "Network Error"
  else .reply 0 "" ⟨5, some [⟨"https://img.example/ok.png"⟩], none⟩

/-- C4 (behavior of the code at the failing input): a transport-level
failure whose message happens to contain "failed" (axios reports HTTP
errors as "Request failed with status code ...") is rethrown at attempt 1
instead of being retried — the run stops after a single query and never
reaches the SUCCESS available from attempt 2 on.  The second conjunct shows
the retry budget does work when the transport message avoids the matched
substrings. -/
theorem c4_transport_error_not_retried :
    waitAppResult c4Oracle 60 = ⟨.error "Request failed with status code 500", 1⟩
    ∧ waitAppResult c4BenignOracle 60 = ⟨.ok "https://img.example/ok.png", 60⟩ := by decide

/-- The all-transport-errors oracle for C5: every attempt throws a retriable
"socket hang up". -/
def c5Oracle : Nat → ComfyResponse := fun _ => .netError "socket hang up"

/-- Counterexample to C5 as stated: a run of maxAttempts = 2 in which every
poll fails at transport level exhausts the attempt ceiling without any poll
reaching a terminal state, yet the raised error is the final attempt's
transport error "socket hang up", not a "max attempts reached" error (the
catch of line 422 rethrows the last error when `attempt === maxAttempts`). -/
theorem c5_counterexample :
    waitAppResult c5Oracle 2 = ⟨.error "socket hang up", 2⟩
    ∧ "socket hang up" ≠ "Max polling attempts reached" := by decide

/-- A response on which the polling loop continues to the next attempt when
one remains: a non-terminal parsed payload, or a thrown message matching
neither "failed" nor "timed out". -/
def retriableResp (resp : ComfyResponse) : Bool :=
  match tryBody resp with
  | .done _ => false
  | .keepPolling => true
  | .raise m => !(hasSub m "failed" || hasSub m "timed out")

theorem waitFrom_all_retriable (oracle : Nat → ComfyResponse) (maxAttempts : Nat) :
    ∀ fuel attempt, attempt + fuel = maxAttempts + 1 → 1 ≤ attempt → 1 ≤ fuel →
    (∀ k, attempt ≤ k → k ≤ maxAttempts → retriableResp (oracle k) = true) →
    waitFrom oracle maxAttempts attempt fuel
      = ⟨.error (match tryBody (oracle maxAttempts) with
            | .raise m => m
            | _ => "Max polling attempts reached"),
         maxAttempts + 1 - attempt⟩ := by
  intro fuel
  induction fuel with
  | zero =>
    intro attempt hsum h1 hf hall
    omega
  | succ f ih =>
    intro attempt hsum h1 hf hall
    have hattle : attempt ≤ maxAttempts := by omega
    have hr := hall attempt le_rfl hattle
    by_cases hlast : f = 0
    · subst hlast
      have haeq : attempt = maxAttempts := by omega
      subst haeq
      cases htb : tryBody (oracle attempt) with
      | done url => simp [retriableResp, htb] at hr
      | keepPolling =>
        simp only [waitFrom, htb]
        refine congrArg (fun n => RunResult.mk _ n) ?_
        omega
      | raise m =>
        have hor : (hasSub m "failed" || hasSub m "timed out") = false := by
          simp only [retriableResp, htb, Bool.not_eq_true'] at hr
          exact hr
        simp only [waitFrom, htb, hor, Bool.false_eq_true, if_false, beq_self_eq_true, if_true]
        refine congrArg (fun n => RunResult.mk _ n) ?_
        omega
    · have hlt : attempt < maxAttempts := by omega
      have hne : (attempt == maxAttempts) = false := by
        simp [Nat.ne_of_lt hlt]
      cases htb : tryBody (oracle attempt) with
      | done url => simp [retriableResp, htb] at hr
      | keepPolling =>
        simp only [waitFrom, htb]
        rw [ih (attempt + 1) (by omega) (by omega) (by omega)
          (fun k hk1 hk2 => hall k (by omega) hk2)]
        refine congrArg (fun n => RunResult.mk _ n) ?_
        simp
        omega
      | raise m =>
        have hor : (hasSub m "failed" || hasSub m "timed out") = false := by
          simp only [retriableResp, htb, Bool.not_eq_true'] at hr
          exact hr
        simp only [waitFrom, htb, hor, Bool.false_eq_true, if_false, hne]
        rw [ih (attempt + 1) (by omega) (by omega) (by omega)
          (fun k hk1 hk2 => hall k (by omega) hk2)]
        refine congrArg (fun n => RunResult.mk _ n) ?_
        simp
        omega

/-- C5 as amended: a run whose polls are all non-terminal (retriable)
exhausts the attempt ceiling, never returns a success, performs exactly
`maxAttempts` status queries, and raises an error — the "Max polling
attempts reached" error when the final attempt's poll parsed a
(non-terminal) payload, and the final attempt's own (transport) error
message otherwise. -/
theorem c5_exhaustion_amended (oracle : Nat → ComfyResponse) (maxAttempts : Nat)
    (hpos : 1 ≤ maxAttempts)
    (hall : ∀ k, 1 ≤ k → k ≤ maxAttempts → retriableResp (oracle k) = true) :
    (waitAppResult oracle maxAttempts).outcome
      = .error (match tryBody (oracle maxAttempts) with
          | .raise m => m
          | _ => "Max polling attempts reached")
    ∧ (waitAppResult oracle maxAttempts).polls = maxAttempts := by
  have h := waitFrom_all_retriable oracle maxAttempts maxAttempts 1 (by omega) le_rfl hpos hall
  rw [waitAppResult, h]
  refine ⟨rfl, ?_⟩
  simp

/-- Witness for the amended C5 on the all-transport-errors run of length 2:
the outcome is the final transport error and exactly 2 queries happen. -/
theorem c5_exhaustion_amended_witness :
    (waitAppResult c5Oracle 2).outcome = .error "socket hang up"
    ∧ (waitAppResult c5Oracle 2).polls = 2 := by
  have hc : retriableResp (.netError "socket hang up") = true := by decide
  have h := c5_exhaustion_amended c5Oracle 2 (by omega) (fun k _ _ => hc)
  have e : (match tryBody (c5Oracle 2) with
      | .raise m => m
      | _ => "Max polling attempts reached") = "socket hang up" := rfl
  rw [e] at h
  exact h

end LiblibAI
